import Mathlib

/-!
Shallow embedding of the `cargo-ecos` orchestration pipeline
(`src/cmd/flash.rs`, `src/cmd/build.rs`, `src/cmd/config.rs`,
`src/cmd/mod.rs`).  Filesystem and subprocess effects are abstracted as
explicit parameters (existence booleans, exit outcomes, file contents);
the decision logic itself is translated line by line from the source.
-/

namespace CargoEcos

/-! ## Flash artifact selection (`src/cmd/flash.rs`, `FlashCommand::execute`) -/

/-- The rebuild decision of `FlashCommand::execute` (flash.rs lines 67-76):
a Rust `match` on `(self.build, self.release, default_bin.exists())` with
guards on `self.safe`, translated arm by arm in order. -/
def should_build (build release safe ex : Bool) : Bool :=
  if build || release then true          -- (true, _, _) | (_, true, _)
  else if ex && safe then false          -- (_, _, true) if self.safe
  else if !ex && !safe then true         -- (_, _, false) if !self.safe
  else false                             -- _

/-- The rebuild precedence table as the specification states it
(spec §4.4, rows in order; the final row is the catch-all). -/
def rebuild_spec_table (build release safe ex : Bool) : Bool :=
  if build || release then true          -- force-rebuild OR release → rebuild
  else if safe && ex then false          -- safe-mode AND artifact exists → use as-is
  else if !ex && !safe then true         -- artifact missing AND NOT safe-mode → rebuild
  else false                             -- otherwise → do not rebuild, use as-is

/-- Outcome of the artifact-selection phase of `FlashCommand::execute`
(flash.rs lines 49-101). -/
inductive BinDecision where
  | customMissingErr (f : String)  -- `--file` given but the file does not exist: fatal
  | custom (f : String)            -- `--file` given and present: used verbatim
  | buildThenDefault               -- rebuild triggered, then use the default artifact
  | safeModeErr                    -- safe mode and default artifact missing: fatal
  | existingDefault                -- use the existing default artifact as-is
  deriving DecidableEq

/-- Artifact selection of `FlashCommand::execute` (flash.rs lines 49-101):
`file` is the `--file` flag, `customExists` whether that file exists,
`defaultExists` whether `build/<name>.bin` exists. -/
def flash_bin_decision (file : Option String) (customExists : Bool)
    (build release safe defaultExists : Bool) : BinDecision :=
  match file with
  | some f => if customExists then .custom f else .customMissingErr f
  | none =>
    if should_build build release safe defaultExists then .buildThenDefault
    else if safe && !defaultExists then .safeModeErr
    else .existingDefault

/-! ## TOML values (the fragment of `toml::Value` the code uses) -/

/-- The fragment of `toml::Value` exercised by the code: strings, booleans,
tables, and everything else collapsed to `other`. -/
inductive Toml where
  | str (s : String)
  | bool (b : Bool)
  | table (entries : List (String × Toml))
  | other

/-- `toml::Value::get`: key lookup on a table, `None` on any other value. -/
def Toml.get : Toml → String → Option Toml
  | .table es, k => es.lookup k
  | _, _ => none

/-- `toml::Value::as_str`. -/
def Toml.as_str : Toml → Option String
  | .str s => some s
  | _ => none

/-- `toml::Value::as_bool`. -/
def Toml.as_bool : Toml → Option Bool
  | .bool b => some b
  | _ => none

/-! ## Flash destination resolution (`FlashCommand::get_target_path`) -/

/-- `FlashCommand::extract_flash_path_from_toml` (flash.rs lines 209-223):
the argument is the outcome of `toml::from_str` (`none` on parse failure),
then `package` → `metadata` → `ecos` → `ecos_flash_cmd_to` → `as_str`,
each step via `?`/`and_then`. -/
def extract_flash_path_from_toml (parsed : Option Toml) : Option String :=
  parsed.bind fun v =>
    ((((v.get "package").bind fun p => p.get "metadata").bind fun m =>
        m.get "ecos").bind fun e => e.get "ecos_flash_cmd_to").bind Toml.as_str

/-- The placeholder test applied to the extracted flash path
(flash.rs lines 179-183). -/
def flash_path_placeholder (s : String) : Bool :=
  (s.toList == []) || "default flash path".toList.isPrefixOf s.toList ||
    decide ("not set".toList <:+: s.toList) || decide ("TODO:".toList <:+: s.toList)

/-- Outcome of `FlashCommand::get_target_path` (flash.rs lines 160-206). -/
inductive TargetPath where
  | ok (p : String)               -- destination resolved
  | errNotAbsolute (p : String)   -- `--path` override not absolute: fatal
  | errNotConfigured              -- metadata value empty/placeholder: fatal, remediation text
  | errNoFlashConfig              -- metadata entry absent: fatal, remediation text
  deriving DecidableEq

/-- `FlashCommand::get_target_path` (flash.rs lines 160-206): `override'`
is the `--path` flag, `isAbs` abstracts `Path::is_absolute`, `cargoToml`
is the parse outcome of the project's `Cargo.toml`. -/
def get_target_path (override' : Option String) (isAbs : String → Bool)
    (cargoToml : Option Toml) : TargetPath :=
  match override' with
  | some p => if !isAbs p then .errNotAbsolute p else .ok p
  | none =>
    match extract_flash_path_from_toml cargoToml with
    | some fp => if flash_path_placeholder fp then .errNotConfigured else .ok fp
    | none => .errNoFlashConfig

/-- `true` on the two fatal "destination not configured" errors of
`get_target_path`, both of which carry the same remediation options. -/
def TargetPath.isFatalNotConfigured : TargetPath → Bool
  | .errNotConfigured => true
  | .errNoFlashConfig => true
  | _ => false

/-! ## Project root discovery (`src/cmd/mod.rs`) -/

/-- State of one ancestor directory's `Cargo.toml` as seen by
`find_project_root`: absent, present but not valid TOML, or parsed. -/
inductive DirToml where
  | noFile
  | parseErr
  | parsed (t : Toml)

/-- The marker test of `is_ecos_project` (mod.rs lines 42-50) on a parsed
`Cargo.toml`: `package.metadata.ecos.ecos_project_root.as_bool() == Some(true)`;
any missing level falls through to `false`. -/
def ecos_marker (t : Toml) : Bool :=
  match ((t.get "package").bind fun p => p.get "metadata").bind fun m =>
      (m.get "ecos").bind fun e => e.get "ecos_project_root" with
  | some v => v.as_bool == some true
  | none => false

/-- Whether a directory qualifies as the project root: its `Cargo.toml`
parses and carries the marker. -/
def DirToml.qualifies : DirToml → Bool
  | .parsed t => ecos_marker t
  | _ => false

/-- Outcome of `find_project_root`: index of the chosen ancestor (0 = the
current directory), the "not an ECOS project" error, or a propagated TOML
parse error. -/
inductive RootResult where
  | found (i : Nat)
  | errNotEcos
  | errParse
  deriving DecidableEq

/-- Shift a result one directory outward. -/
def RootResult.shift : RootResult → RootResult
  | .found i => .found (i + 1)
  | r => r

/-- `find_project_root` (mod.rs lines 13-35) over the chain of ancestor
directories, innermost first: a missing `Cargo.toml` is skipped; a
`Cargo.toml` that fails to parse aborts via `is_ecos_project(...)?`; a
parsed one is chosen iff the marker holds, else skipped. -/
def find_project_root : List DirToml → RootResult
  | [] => .errNotEcos
  | .noFile :: rest => (find_project_root rest).shift
  | .parseErr :: _ => .errParse
  | .parsed t :: rest =>
    if ecos_marker t then .found 0 else (find_project_root rest).shift

/-- Modelled from the spec claim (C10's resolution rule): the nearest
ancestor whose `Cargo.toml` parses and carries the marker wins; every
non-qualifying ancestor — including one whose `Cargo.toml` does not parse —
is skipped; no qualifying ancestor means the "not an ECOS project" error. -/
def find_project_root_claimed : List DirToml → RootResult
  | [] => .errNotEcos
  | .parsed t :: rest =>
    if ecos_marker t then .found 0 else (find_project_root_claimed rest).shift
  | _ :: rest => (find_project_root_claimed rest).shift

/-- A concrete `Cargo.toml` carrying the ECOS project-root marker. -/
def sampleMarkerToml : Toml :=
  .table [("package", .table [("metadata", .table [("ecos",
    .table [("ecos_project_root", .bool true)])])])]

/-! ## Hex-image address fix-up (`src/cmd/build.rs`, line 148) -/

/-- The tail of the origin-address token, after the leading `@`. -/
def hexPatTail : List Char := "30000000".toList

/-- The origin-address token `@30000000` rewritten by the fix-up. -/
def hexPat : List Char := '@' :: hexPatTail

/-- The replacement token `@00000000`. -/
def hexRepl : List Char := "@00000000".toList

/-- `hex_content.replace("@30000000", "@00000000")` (build.rs line 148):
Rust's `str::replace`, i.e. leftmost-first non-overlapping replacement of
every occurrence, modelled over the character sequence (the pattern is
ASCII, so byte positions and character positions agree). -/
def hexFix : List Char → List Char
  | [] => []
  | c :: rest =>
    if hexPat.isPrefixOf (c :: rest) then
      hexRepl ++ hexFix (List.drop 8 rest)
    else
      c :: hexFix rest
termination_by s => s.length
decreasing_by
  · simp only [List.length_drop, List.length_cons]
    omega
  · simp only [List.length_cons]
    omega

/-! ## Build post-processing (`BuildCommand::run_postbuild`, build.rs 84-161) -/

/-- Fatal outcomes of `run_postbuild`.  `ioErr` stands for any error
propagated by `?` from a filesystem operation or a failure to spawn an
external tool. -/
inductive PostbuildErr where
  | nameErr       -- extract_project_name failed
  | elfNotFound   -- "ELF file not found"
  | binFailed     -- "Failed to generate binary file"
  | hexFailed     -- "Failed to generate hex file"
  | ioErr
  deriving DecidableEq

/-- The artifacts written by a successful `run_postbuild`: the fixed-up hex
image and the disassembly text (objdump's captured stdout, verbatim). -/
structure PostbuildOut where
  hexFixed : List Char
  disasmTxt : List Char

/-- `BuildCommand::run_postbuild` (build.rs lines 84-161) with effects
abstracted: `binRun`/`hexRun` are the objcopy invocations (`none` = spawn
error from `.status()?`, `some b` = exited with success flag `b`);
`hexRead` is `fs::read_to_string` of the hex file; `disasmRun` is the
objdump invocation (`none` = spawn error from `.output()?`, otherwise the
exit-success flag and captured stdout).  The objdump exit flag is bound
but never inspected by the source, which writes `output.stdout`
unconditionally. -/
def run_postbuild (nameOk elfExists mkdirOk : Bool) (binRun hexRun : Option Bool)
    (hexRead : Option (List Char)) (hexWriteOk : Bool)
    (disasmRun : Option (Bool × List Char)) (txtWriteOk : Bool) :
    Except PostbuildErr PostbuildOut :=
  if !nameOk then .error .nameErr
  else if !elfExists then .error .elfNotFound
  else if !mkdirOk then .error .ioErr
  else
    match binRun with
    | none => .error .ioErr
    | some binOk =>
      if !binOk then .error .binFailed
      else
        match hexRun with
        | none => .error .ioErr
        | some hexOk =>
          if !hexOk then .error .hexFailed
          else
            match hexRead with
            | none => .error .ioErr
            | some hexContent =>
              if !hexWriteOk then .error .ioErr
              else
                match disasmRun with
                | none => .error .ioErr
                | some (_, dump) =>
                  if !txtWriteOk then .error .ioErr
                  else .ok ⟨hexFix hexContent, dump⟩

/-! ## Memory report (`BuildCommand::generate_memory_report`, build.rs 163-220) -/

/-- The warnings the memory-report stage can print instead of failing. -/
inductive MemWarn where
  | elfMissing    -- "ELF file not found, skipping memory report"
  | mkMissing     -- "mem_report.mk not found in SDK"
  | reportFailed  -- "Memory report generation failed"
  deriving DecidableEq

/-- `BuildCommand::generate_memory_report` (build.rs lines 163-220) with
effects abstracted: `nameOk` is `extract_project_name(...)?`,
`writeMakefileOk` is `fs::write(&temp_makefile, ...)?`, `makeRun` is the
`make` invocation (`none` = spawn error from `.status()?`, `some b` = exit
success flag).  Returns the warnings printed, or the propagated error. -/
def generate_memory_report (nameOk elfExists mkExists writeMakefileOk : Bool)
    (makeRun : Option Bool) : Except Unit (List MemWarn) :=
  if !nameOk then .error ()
  else if !elfExists then .ok [.elfMissing]
  else if mkExists then
    if !writeMakefileOk then .error ()
    else
      match makeRun with
      | none => .error ()
      | some ok => .ok (if ok then [] else [.reportFailed])
  else .ok [.mkMissing]

/-- The tail of `BuildCommand::execute` (build.rs lines 73-79): after a
successful post-build, the build completes iff `--no-mem-report` was
passed or the memory-report stage did not propagate an error (line 74
applies `?` to its result). -/
def build_completes_after_postbuild (noMemReport : Bool)
    (mr : Except Unit (List MemWarn)) : Bool :=
  noMemReport || mr.isOk


/-! ## Configuration-to-header conversion
(`ConfigCommand::convert_auto_conf_to_autoconf_h`, config.rs 288-334) -/

/-- Rust `str::trim` over the character sequence (drop whitespace from
both ends). -/
def trimWS (s : List Char) : List Char :=
  (((s.dropWhile Char.isWhitespace).reverse).dropWhile Char.isWhitespace).reverse

/-- Rust `trimmed.splitn(2, '=')` with the `parts.len() == 2` check of
config.rs line 307: `none` when the line contains no `=`, otherwise the
text before the first `=` and everything after it. -/
def splitFirstEq : List Char → Option (List Char × List Char)
  | [] => none
  | c :: rest =>
    if c = '=' then some ([], rest)
    else (splitFirstEq rest).map fun p => (c :: p.1, p.2)

/-- The per-line body of the conversion loop (config.rs lines 303-322):
the generated header line for one input line, or `none` when the line is
skipped (no `CONFIG_` lead after trimming, or no `=`). -/
def convLine (line : List Char) : Option (List Char) :=
  let t := trimWS line
  if "CONFIG_".toList.isPrefixOf t then
    match splitFirstEq t with
    | some (n, v) =>
      let name := trimWS n
      let value := trimWS v
      if value == "y".toList || value == "\"y\"".toList then
        some ("#define ".toList ++ name ++ " 1".toList)
      else if value == "n".toList || value == "\"n\"".toList then
        some ("/* #undef ".toList ++ name ++ " */".toList)
      else if (value.head? == some '"') && (value.getLast? == some '"') then
        some ("#define ".toList ++ name ++ ' ' :: '"' :: ((value.drop 1).dropLast ++ ['"']))
      else
        some ("#define ".toList ++ name ++ ' ' :: value)
    | none => none
  else none

/-- The fixed lines emitted before the converted body
(config.rs lines 299-301). -/
def autoconf_prologue : List (List Char) :=
  ["/* Automatically generated file; DO NOT EDIT. */".toList,
   "#ifndef __AUTOCONF_H__".toList, "#define __AUTOCONF_H__".toList, [] ]

/-- The fixed lines emitted after the converted body (config.rs 325). -/
def autoconf_epilogue : List (List Char) :=
  [[], "#endif /* __AUTOCONF_H__ */".toList]

/-- `ConfigCommand::convert_auto_conf_to_autoconf_h` on the input's lines:
prologue, then the conversion of each recognized line in order, then the
epilogue. -/
def convert_auto_conf_to_autoconf_h (ls : List (List Char)) : List (List Char) :=
  autoconf_prologue ++ ls.filterMap convLine ++ autoconf_epilogue


end CargoEcos

namespace CargoEcos

/-- C1: without `--file`, the rebuild decision over
(build flag, release flag, safe flag, default-artifact existence)
matches the spec's precedence table on all sixteen inputs. -/
theorem c1_rebuild_decision_matches_table :
    ∀ build release safe ex : Bool,
      should_build build release safe ex = rebuild_spec_table build release safe ex := by
  decide

/-- C2 counterexample: with `--build` set, safe mode set, and the default
artifact missing (no `--file`), the command triggers a rebuild instead of
failing with the remediation error, so the claim "for all settings of the
remaining flags" is false. -/
theorem c2_counterexample :
    flash_bin_decision none true true false true false = BinDecision.buildThenDefault ∧
    flash_bin_decision none true true false true false ≠ BinDecision.safeModeErr := by
  decide

/-- C2 (amended): in safe mode with no default artifact and no `--file`,
and with neither `--build` nor `--release` set, the command fails with the
remediation error and never rebuilds, for any state of the custom-file
existence input. -/
theorem c2_safe_mode_missing_artifact_fails :
    ∀ customExists : Bool,
      flash_bin_decision none customExists false false true false = BinDecision.safeModeErr := by
  decide

/-- Helper for C10: with no parse-failing ancestor, `find_project_root`
follows the claimed nearest-marker resolution. -/
theorem find_project_root_eq_claimed_of_no_parseErr :
    ∀ dirs : List DirToml, (∀ d ∈ dirs, d ≠ DirToml.parseErr) →
      find_project_root dirs = find_project_root_claimed dirs := by
  intro dirs
  induction dirs with
  | nil => intro _; rfl
  | cons d rest ih =>
    intro h
    have hrest : ∀ d ∈ rest, d ≠ DirToml.parseErr := fun d hd => h d (List.mem_cons_of_mem _ hd)
    cases d with
    | noFile =>
      simp only [find_project_root, find_project_root_claimed, ih hrest]
    | parseErr => exact absurd rfl (h _ (List.mem_cons_self _ _))
    | parsed t =>
      simp only [find_project_root, find_project_root_claimed, ih hrest]

/-- Helper for C10: a parse-failing ancestor with no nearer qualifying
ancestor aborts the search with the parse error. -/
theorem find_project_root_parseErr_aborts :
    ∀ (pre post : List DirToml), (∀ d ∈ pre, d.qualifies = false) →
      find_project_root (pre ++ DirToml.parseErr :: post) = RootResult.errParse := by
  intro pre
  induction pre with
  | nil => intro post _; rfl
  | cons d pre' ih =>
    intro post h
    have hpre' : ∀ d ∈ pre', d.qualifies = false := fun d hd => h d (List.mem_cons_of_mem _ hd)
    cases d with
    | noFile =>
      show (find_project_root (pre' ++ DirToml.parseErr :: post)).shift = RootResult.errParse
      rw [ih post hpre']
      rfl
    | parseErr => rfl
    | parsed t =>
      have hq : ecos_marker t = false := h _ (List.mem_cons_self _ _)
      show (if ecos_marker t = true then RootResult.found 0
            else (find_project_root (pre' ++ DirToml.parseErr :: post)).shift) =
          RootResult.errParse
      rw [hq, ih post hpre']
      rfl

/-- C8: with `--file` given, the file must exist (fatal otherwise) and is
used verbatim; no build is ever triggered, for every setting of the
build, release, and safe flags and of default-artifact existence. -/
theorem c8_explicit_file_used_verbatim :
    ∀ (f : String) (customExists build release safe defaultExists : Bool),
      flash_bin_decision (some f) customExists build release safe defaultExists =
        (if customExists then BinDecision.custom f else BinDecision.customMissingErr f) ∧
      flash_bin_decision (some f) customExists build release safe defaultExists ≠
        BinDecision.buildThenDefault := by
  intro f customExists build release safe defaultExists
  cases customExists <;> simp [flash_bin_decision]

/-- C3: an explicit `--path` override is used exactly when absolute and is
fatal exactly when not; the result never depends on the persisted metadata
(the right-hand side does not mention `cargoToml`). -/
theorem c3_override_absolute_wins :
    ∀ (p : String) (isAbs : String → Bool) (cargoToml : Option Toml),
      get_target_path (some p) isAbs cargoToml =
        (if isAbs p then TargetPath.ok p else TargetPath.errNotAbsolute p) := by
  intro p isAbs cargoToml
  cases h : isAbs p <;> simp [get_target_path, h]

/-- C9: with no override, destination resolution yields a fatal
"not configured" error (with remediation guidance) exactly when the
metadata entry is absent or the extracted value is empty/placeholder;
otherwise the metadata value is accepted as the destination. -/
theorem c9_metadata_placeholder_characterization :
    ∀ (isAbs : String → Bool) (cargoToml : Option Toml),
      ((get_target_path none isAbs cargoToml).isFatalNotConfigured = true ↔
        extract_flash_path_from_toml cargoToml = none ∨
          ∃ s, extract_flash_path_from_toml cargoToml = some s ∧
            flash_path_placeholder s = true) ∧
      (∀ s, extract_flash_path_from_toml cargoToml = some s →
        flash_path_placeholder s = false →
        get_target_path none isAbs cargoToml = TargetPath.ok s) := by
  intro isAbs cargoToml
  cases h : extract_flash_path_from_toml cargoToml with
  | none =>
    refine ⟨?_, ?_⟩
    · simp [get_target_path, h, TargetPath.isFatalNotConfigured]
    · intro s hs; cases hs
  | some s =>
    cases hp : flash_path_placeholder s with
    | false =>
      refine ⟨?_, ?_⟩
      · simp [get_target_path, h, hp, TargetPath.isFatalNotConfigured]
      · intro s' hs' hp'
        injection hs' with hss
        subst hss
        simp [get_target_path, h, hp]
    | true =>
      refine ⟨?_, ?_⟩
      · constructor
        · intro _; exact Or.inr ⟨s, rfl, hp⟩
        · intro _; simp [get_target_path, h, hp, TargetPath.isFatalNotConfigured]
      · intro s' hs' hp'
        injection hs' with hss
        subst hss
        rw [hp] at hp'
        cases hp'

/-- C9 witness: a concrete metadata block whose flash path is a real value
is accepted as the destination. -/
theorem c9_metadata_placeholder_characterization_witness :
    get_target_path none (fun _ => true)
        (some (Toml.table [("package", Toml.table [("metadata", Toml.table [("ecos",
          Toml.table [("ecos_flash_cmd_to", Toml.str "/media/usb0/")])])])])) =
      TargetPath.ok "/media/usb0/" :=
  (c9_metadata_placeholder_characterization (fun _ => true) _).2
    "/media/usb0/" rfl (by decide)

theorem hexFix_nil : hexFix [] = [] := by simp [hexFix]

theorem hexFix_cons (c : Char) (rest : List Char) :
    hexFix (c :: rest) =
      if hexPat.isPrefixOf (c :: rest) then hexRepl ++ hexFix (List.drop 8 rest)
      else c :: hexFix rest := by
  rw [hexFix]

theorem hexPat_length : hexPat.length = 9 := rfl

theorem hexRepl_length : hexRepl.length = 9 := rfl

theorem hexFix_match (t : List Char) : hexFix (hexPat ++ t) = hexRepl ++ hexFix t := by
  have h8 : hexPatTail.length = 8 := rfl
  have hpre : hexPat.isPrefixOf (hexPat ++ t) = true :=
    List.isPrefixOf_iff_prefix.mpr ( List.prefix_append _ _)
  show hexFix ('@' :: (hexPatTail ++ t)) = hexRepl ++ hexFix t
  rw [hexFix_cons, if_pos (by exact hpre), ← h8, List.drop_left]

theorem hexFix_nomatch {c : Char} {rest : List Char}
    (h : hexPat.isPrefixOf (c :: rest) = false) :
    hexFix (c :: rest) = c :: hexFix rest := by
  rw [hexFix_cons, if_neg (by simp [h])]

theorem hexFix_of_no_occ : ∀ s : List Char, ¬ hexPat <:+: s → hexFix s = s := by
  intro s
  induction s with
  | nil => intro _; exact hexFix_nil
  | cons c rest ih =>
    intro h
    have hpre : hexPat.isPrefixOf (c :: rest) = false := by
      cases hp : hexPat.isPrefixOf (c :: rest) with
      | false => rfl
      | true =>
        exact absurd ( List.IsPrefix.isInfix ( List.isPrefixOf_iff_prefix.mp hp)) h
    rw [hexFix_nomatch hpre, ih (fun hi => h ( List.infix_cons hi))]

theorem hexPat_at_ne : ∀ k, k < 9 → 1 ≤ k → hexPat[k]? ≠ some '@' := by decide

theorem hexRepl_at_ne : ∀ i, i < 9 → 1 ≤ i → hexRepl[i]? ≠ some '@' := by decide

theorem hexFix_append_pat : ∀ (a b : List Char), ¬ hexPat <:+: a →
    hexFix (a ++ hexPat ++ b) = a ++ hexRepl ++ hexFix b := by
  intro a
  induction a with
  | nil => intro b _; simpa using hexFix_match b
  | cons c a' ih =>
    intro b h
    have hpre : hexPat.isPrefixOf (c :: (a' ++ hexPat ++ b)) = false := by
      cases hp : hexPat.isPrefixOf (c :: (a' ++ hexPat ++ b)) with
      | false => rfl
      | true =>
        exfalso
        have hp' : hexPat <+: (c :: a') ++ (hexPat ++ b) := by
          have := List.isPrefixOf_iff_prefix.mp hp
          simpa [List.append_assoc] using this
        have htake : hexPat = List.take 9 ((c :: a') ++ (hexPat ++ b)) := by
          have := List.prefix_iff_eq_take.mp hp'
          simpa [hexPat_length] using this
        by_cases hlen : 9 ≤ (c :: a').length
        · have he : hexPat = List.take 9 (c :: a') := by
            rw [htake, List.take_append_of_le_length hlen]
          have : hexPat <+: (c :: a') := he ▸ List.take_prefix 9 (c :: a')
          exact h ( List.IsPrefix.isInfix this)
        · have hk1 : 1 ≤ (c :: a').length := by simp
          have hk9 : (c :: a').length < 9 := by omega
          have e1 : hexPat[(c :: a').length]? =
              ((c :: a') ++ (hexPat ++ b))[(c :: a').length]? := by
            conv_lhs => rw [htake]
            rw [List.getElem?_take, if_pos hk9]
          have e2 : ((c :: a') ++ (hexPat ++ b))[(c :: a').length]? = some '@' := by
            rw [List.getElem?_append, if_neg (lt_irrefl _), Nat.sub_self,
              List.getElem?_append, if_pos (by rw [hexPat_length]; omega)]
            decide
          exact hexPat_at_ne _ hk9 hk1 (e1.trans e2)
    rw [List.cons_append, List.cons_append, hexFix_nomatch hpre,
      ih b (fun hi => h ( List.infix_cons hi))]
    rfl

theorem isInfix_append_split : ∀ {α : Type} (x l y : List α), l <:+: x ++ y →
    l <:+: y ∨ ∃ x₂, x₂ <:+ x ∧ x₂ ≠ [] ∧ l <+: x₂ ++ y := by
  intro α x
  induction x with
  | nil => intro l y h; exact Or.inl (by simpa using h)
  | cons c x' ih =>
    intro l y h
    rw [List.cons_append, List.infix_cons_iff] at h
    cases h with
    | inl hp => exact Or.inr ⟨c :: x', List.suffix_rfl, by simp, hp⟩
    | inr hi =>
      cases ih l y hi with
      | inl h' => exact Or.inl h'
      | inr h' =>
        obtain ⟨x₂, hs, hne, hp⟩ := h'
        exact Or.inr ⟨x₂, List.IsSuffix.trans hs ( List.suffix_cons c x'), hne, hp⟩

theorem replicate_zero_prefix_hexFix : ∀ (u : List Char) (k : Nat), k ≤ 8 →
    List.replicate k '0' <+: hexFix u → List.replicate k '0' <+: u := by
  intro u
  induction u with
  | nil =>
    intro k _ h
    rw [hexFix_nil, List.prefix_nil] at h
    rw [h]
  | cons c u' ih =>
    intro k hk h
    cases hm : hexPat.isPrefixOf (c :: u') with
    | true =>
      cases k with
      | zero => exact List.nil_prefix
      | succ j =>
        exfalso
        rw [hexFix_cons, if_pos hm] at h
        obtain ⟨w, hw⟩ := h
        rw [List.replicate_succ, List.cons_append] at hw
        have h0 : (hexRepl ++ hexFix (List.drop 8 u'))[0]? = some '0' := by
          rw [← hw, List.getElem?_cons_zero]
        rw [List.getElem?_append, if_pos (by rw [hexRepl_length]; omega)] at h0
        exact absurd h0 (by decide)
    | false =>
      rw [hexFix_nomatch hm] at h
      cases k with
      | zero => exact List.nil_prefix
      | succ j =>
        rw [List.replicate_succ] at h ⊢
        rw [List.cons_prefix_cons] at h
        obtain ⟨hc, hrest⟩ := h
        exact List.cons_prefix_cons.mpr ⟨hc, ih j (by omega) hrest⟩

theorem hexPatTail_prefix_hexFix : ∀ u : List Char,
    hexPatTail <+: hexFix u → hexPatTail <+: u := by
  have htail : hexPatTail = '3' :: List.replicate 7 '0' := by decide
  intro u h
  cases u with
  | nil =>
    rw [hexFix_nil, List.prefix_nil] at h
    exact absurd h (by decide)
  | cons c u' =>
    cases hm : hexPat.isPrefixOf (c :: u') with
    | true =>
      exfalso
      rw [hexFix_cons, if_pos hm] at h
      obtain ⟨w, hw⟩ := h
      rw [htail, List.cons_append] at hw
      have h0 : (hexRepl ++ hexFix (List.drop 8 u'))[0]? = some '3' := by
        rw [← hw, List.getElem?_cons_zero]
      rw [List.getElem?_append, if_pos (by rw [hexRepl_length]; omega)] at h0
      exact absurd h0 (by decide)
    | false =>
      rw [hexFix_nomatch hm] at h
      rw [htail, List.cons_prefix_cons] at h ⊢
      obtain ⟨hc, hrest⟩ := h
      exact ⟨hc, replicate_zero_prefix_hexFix u' 7 (by omega) hrest⟩

theorem hexFix_no_occ_aux : ∀ (n : Nat) (s : List Char), s.length ≤ n →
    ¬ hexPat <:+: hexFix s := by
  intro n
  induction n with
  | zero =>
    intro s hs
    cases s with
    | nil =>
      rw [hexFix_nil]
      intro h
      exact absurd (List.eq_nil_of_infix_nil h) (by decide)
    | cons c rest => simp at hs
  | succ n ihn =>
    intro s hs
    cases s with
    | nil =>
      rw [hexFix_nil]
      intro h
      exact absurd (List.eq_nil_of_infix_nil h) (by decide)
    | cons c rest =>
      cases hm : hexPat.isPrefixOf (c :: rest) with
      | true =>
        obtain ⟨t, ht⟩ := List.isPrefixOf_iff_prefix.mp hm
        have hrest : rest = hexPatTail ++ t := by
          have ht' : '@' :: (hexPatTail ++ t) = c :: rest := ht
          injection ht' with h1 h2
          exact h2.symm
        have hdrop : List.drop 8 rest = t := by
          rw [hrest, show (8 : Nat) = hexPatTail.length from rfl, List.drop_left]
        rw [hexFix_cons, if_pos hm, hdrop]
        intro hocc
        rcases isInfix_append_split hexRepl hexPat (hexFix t) hocc with h' | ⟨x₂, hsuf, hne, hp⟩
        · have htlen : t.length ≤ n := by
            have : rest.length = 8 + t.length := by
              rw [hrest, List.length_append]; rfl
            simp only [List.length_cons] at hs
            omega
          exact ihn t htlen h'
        · obtain ⟨pre, hpre2⟩ := hsuf
          obtain ⟨w', hw'⟩ := hp
          have hx0 : x₂[0]? = some '@' := by
            have h0 : (hexPat ++ w')[0]? = (x₂ ++ hexFix t)[0]? := by rw [hw']
            rw [List.getElem?_append, if_pos (by rw [hexPat_length]; omega),
              List.getElem?_append, if_pos ( List.length_pos.mpr hne)] at h0
            rw [← h0]
            decide
          have hx₂ : x₂[0]? = hexRepl[pre.length]? := by
            have h1 : (pre ++ x₂)[pre.length]? = hexRepl[pre.length]? := by rw [hpre2]
            rw [List.getElem?_append, if_neg (lt_irrefl _), Nat.sub_self] at h1
            exact h1
          have hat : hexRepl[pre.length]? = some '@' := hx₂.symm.trans hx0
          have hpl : pre.length = 0 := by
            by_contra hne0
            have h1 : 1 ≤ pre.length := Nat.one_le_iff_ne_zero.mpr hne0
            by_cases h9 : pre.length < 9
            · exact hexRepl_at_ne pre.length h9 h1 hat
            · rw [List.getElem?_eq_none (by rw [hexRepl_length]; omega)] at hat
              exact Option.noConfusion hat
          have hx2eq : x₂ = hexRepl := by
            have : pre = [] := List.length_eq_zero.mp hpl
            rw [← hpre2, this, List.nil_append]
          rw [hx2eq] at hw'
          have h1 : (hexPat ++ w')[1]? = (hexRepl ++ hexFix t)[1]? := by rw [hw']
          rw [List.getElem?_append, if_pos (by rw [hexPat_length]; omega),
            List.getElem?_append, if_pos (by rw [hexRepl_length]; omega)] at h1
          exact absurd h1 (by decide)
      | false =>
        rw [hexFix_nomatch hm]
        intro hocc
        rw [List.infix_cons_iff] at hocc
        cases hocc with
        | inl hp =>
          rw [show hexPat = '@' :: hexPatTail from rfl, List.cons_prefix_cons] at hp
          obtain ⟨hc, htl⟩ := hp
          have hpr : hexPat.isPrefixOf (c :: rest) = true := by
            rw [ List.isPrefixOf_iff_prefix,
              show hexPat = '@' :: hexPatTail from rfl, List.cons_prefix_cons]
            exact ⟨hc, hexPatTail_prefix_hexFix rest htl⟩
          rw [hm] at hpr
          exact Bool.noConfusion hpr
        | inr hi =>
          have : rest.length ≤ n := by
            simp only [List.length_cons] at hs
            omega
          exact ihn rest this hi

theorem hexFix_no_occ (s : List Char) : ¬ hexPat <:+: hexFix s :=
  hexFix_no_occ_aux s.length s le_rfl

/-- C6: the hex-image address fix-up replaces every occurrence of
`@30000000` with `@00000000` and changes nothing else (a string with no
occurrence is unchanged; an occurrence preceded by occurrence-free text is
replaced in place with everything around it preserved), and the rewrite is
idempotent. -/
theorem c6_address_fixup_exact_idempotent :
    (∀ s : List Char, ¬ hexPat <:+: s → hexFix s = s) ∧
    (∀ a b : List Char, ¬ hexPat <:+: a →
      hexFix (a ++ hexPat ++ b) = a ++ hexRepl ++ hexFix b) ∧
    (∀ s : List Char, hexFix (hexFix s) = hexFix s) :=
  ⟨hexFix_of_no_occ, hexFix_append_pat,
    fun s => hexFix_of_no_occ _ (hexFix_no_occ s)⟩

/-- C6 witness: the fix-up applied through the theorem at concrete hex
fragments. -/
theorem c6_address_fixup_exact_idempotent_witness :
    hexFix "freq 100".toList = "freq 100".toList ∧
    hexFix ("ab".toList ++ hexPat ++ "cd".toList) =
      "ab".toList ++ hexRepl ++ hexFix "cd".toList ∧
    hexFix (hexFix "@30000000 11".toList) = hexFix "@30000000 11".toList :=
  ⟨c6_address_fixup_exact_idempotent.1 _ (by decide),
    c6_address_fixup_exact_idempotent.2.1 _ _ (by decide),
    c6_address_fixup_exact_idempotent.2.2 _⟩

theorem splitFirstEq_append : ∀ (name value : List Char), '=' ∉ name →
    splitFirstEq (name ++ '=' :: value) = some (name, value) := by
  intro name value
  induction name with
  | nil => intro _; simp [splitFirstEq]
  | cons c n' ih =>
    intro h
    have hc : ¬ c = '=' := fun hq => h (hq ▸ List.mem_cons_self _ _)
    show (if c = '=' then some ([], n' ++ '=' :: value)
          else (splitFirstEq (n' ++ '=' :: value)).map fun p => (c :: p.1, p.2)) =
        some (c :: n', value)
    rw [if_neg hc, ih (fun hm => h (List.mem_cons_of_mem _ hm))]
    rfl

theorem dropWhile_eq_self_append {l : List Char} (m : List Char)
    (h : l.dropWhile Char.isWhitespace = l) (hne : l ≠ []) :
    (l ++ m).dropWhile Char.isWhitespace = l ++ m := by
  cases l with
  | nil => exact absurd rfl hne
  | cons c l' =>
    have hc : Char.isWhitespace c = false := by
      cases hw : Char.isWhitespace c with
      | false => rfl
      | true =>
        rw [List.dropWhile_cons, if_pos hw] at h
        have := congrArg List.length h
        have hle := List.IsSuffix.length_le ( List.dropWhile_suffix (l := l')
          (p := Char.isWhitespace))
        simp only [List.length_cons] at this
        omega
    rw [List.cons_append, List.dropWhile_cons, if_neg (by simp [hc])]

theorem trimWS_self_parts {l : List Char} (h : trimWS l = l) :
    l.dropWhile Char.isWhitespace = l ∧
    l.reverse.dropWhile Char.isWhitespace = l.reverse := by
  have hA : (l.dropWhile Char.isWhitespace) <:+ l := List.dropWhile_suffix _
  have hAle := List.IsSuffix.length_le hA
  have hB : ((l.dropWhile Char.isWhitespace).reverse.dropWhile Char.isWhitespace) <:+
      (l.dropWhile Char.isWhitespace).reverse := List.dropWhile_suffix _
  have hBle := List.IsSuffix.length_le hB
  rw [List.length_reverse] at hBle
  have hlen := congrArg List.length h
  unfold trimWS at hlen
  rw [List.length_reverse] at hlen
  have hAeq : l.dropWhile Char.isWhitespace = l :=
    List.IsSuffix.eq_of_length hA (by omega)
  refine ⟨hAeq, ?_⟩
  have hBeq := List.IsSuffix.eq_of_length hB (by rw [List.length_reverse]; omega)
  rw [hAeq] at hBeq
  exact hBeq

theorem trimWS_mkLine (name value : List Char)
    (hn : trimWS name = name) (hv : trimWS value = value) (hne : name ≠ []) :
    trimWS (name ++ '=' :: value) = name ++ '=' :: value := by
  obtain ⟨hn1, _⟩ := trimWS_self_parts hn
  obtain ⟨_, hv2⟩ := trimWS_self_parts hv
  have hrev : (name ++ '=' :: value).reverse = value.reverse ++ '=' :: name.reverse := by
    rw [List.reverse_append, List.reverse_cons, List.append_assoc]
    rfl
  unfold trimWS
  rw [dropWhile_eq_self_append ('=' :: value) hn1 hne, hrev]
  cases value with
  | nil =>
    simp only [List.reverse_nil, List.nil_append, List.dropWhile_cons]
    rw [if_neg (by decide)]
    rw [← List.nil_append ('=' :: name.reverse), ← List.reverse_nil (α := Char), ← hrev,
      List.reverse_reverse]
    rfl
  | cons d v' =>
    rw [dropWhile_eq_self_append ('=' :: name.reverse) hv2 (by simp), ← hrev,
      List.reverse_reverse]

theorem convLine_mkLine (name value : List Char)
    (hn : trimWS name = name) (hv : trimWS value = value)
    (hp : "CONFIG_".toList.isPrefixOf name = true) (hne : '=' ∉ name) :
    convLine (name ++ '=' :: value) =
      (if value == "y".toList || value == "\"y\"".toList then
        some ("#define ".toList ++ name ++ " 1".toList)
      else if value == "n".toList || value == "\"n\"".toList then
        some ("/* #undef ".toList ++ name ++ " */".toList)
      else if (value.head? == some '"') && (value.getLast? == some '"') then
        some ("#define ".toList ++ name ++ ' ' :: '"' :: ((value.drop 1).dropLast ++ ['"']))
      else
        some ("#define ".toList ++ name ++ ' ' :: value)) := by
  have hname_ne : name ≠ [] := by
    intro h
    rw [h] at hp
    exact absurd hp (by decide)
  have htrim := trimWS_mkLine name value hn hv hname_ne
  have hsplit := splitFirstEq_append name value hne
  have hpre2 : "CONFIG_".toList.isPrefixOf (name ++ '=' :: value) = true := by
    rw [ List.isPrefixOf_iff_prefix] at hp ⊢
    exact hp.trans ( List.prefix_append _ _)
  simp only [convLine, htrim, hpre2, if_true, hsplit, hn, hv]

theorem convLine_eq (line : List Char) :
    convLine line =
      (if "CONFIG_".toList.isPrefixOf (trimWS line) then
        match splitFirstEq (trimWS line) with
        | some (n, v) =>
          if trimWS v == "y".toList || trimWS v == "\"y\"".toList then
            some ("#define ".toList ++ trimWS n ++ " 1".toList)
          else if trimWS v == "n".toList || trimWS v == "\"n\"".toList then
            some ("/* #undef ".toList ++ trimWS n ++ " */".toList)
          else if ((trimWS v).head? == some '"') && ((trimWS v).getLast? == some '"') then
            some ("#define ".toList ++ trimWS n ++ ' ' :: '"' ::
              (((trimWS v).drop 1).dropLast ++ ['"']))
          else
            some ("#define ".toList ++ trimWS n ++ ' ' :: trimWS v)
        | none => none
      else none) := rfl

/-- C7: the key/value-to-header conversion maps each recognized
`CONFIG_NAME=value` line as the claim states, with the cases taken in the
order listed: boolean-true (`y`, bare or quoted) gives `#define NAME 1`;
boolean-false (`n`, bare or quoted) gives a commented-out `#undef`;
a double-quoted value gives a string `#define` preserving the quoted text;
any other value gives a literal `#define NAME value`; lines without the
`CONFIG_` lead after trimming or without `=` are silently skipped; and the
four concrete example lines produce exactly the four claimed header
lines. -/
theorem c7_config_header_mapping :
    (∀ name value : List Char,
      trimWS name = name → trimWS value = value →
      "CONFIG_".toList.isPrefixOf name = true → '=' ∉ name →
      (value = "y".toList ∨ value = "\"y\"".toList) →
      convLine (name ++ '=' :: value) =
        some ("#define ".toList ++ name ++ " 1".toList)) ∧
    (∀ name value : List Char,
      trimWS name = name → trimWS value = value →
      "CONFIG_".toList.isPrefixOf name = true → '=' ∉ name →
      (value = "n".toList ∨ value = "\"n\"".toList) →
      convLine (name ++ '=' :: value) =
        some ("/* #undef ".toList ++ name ++ " */".toList)) ∧
    (∀ name value : List Char,
      trimWS name = name → trimWS value = value →
      "CONFIG_".toList.isPrefixOf name = true → '=' ∉ name →
      value.head? = some '"' → value.getLast? = some '"' → 2 ≤ value.length →
      value ≠ "\"y\"".toList → value ≠ "\"n\"".toList →
      convLine (name ++ '=' :: value) =
        some ("#define ".toList ++ name ++ ' ' :: '"' ::
          ((value.drop 1).dropLast ++ ['"']))) ∧
    (∀ name value : List Char,
      trimWS name = name → trimWS value = value →
      "CONFIG_".toList.isPrefixOf name = true → '=' ∉ name →
      value ≠ "y".toList → value ≠ "\"y\"".toList →
      value ≠ "n".toList → value ≠ "\"n\"".toList →
      ((value.head? == some '"') && (value.getLast? == some '"')) = false →
      convLine (name ++ '=' :: value) =
        some ("#define ".toList ++ name ++ ' ' :: value)) ∧
    (∀ line : List Char,
      "CONFIG_".toList.isPrefixOf (trimWS line) = false → convLine line = none) ∧
    (∀ line : List Char,
      splitFirstEq (trimWS line) = none → convLine line = none) ∧
    (convert_auto_conf_to_autoconf_h
        ["CONFIG_A=y".toList, "CONFIG_B=n".toList,
         "CONFIG_C=\"hello\"".toList, "CONFIG_D=42".toList] =
      autoconf_prologue ++
        ["#define CONFIG_A 1".toList, "/* #undef CONFIG_B */".toList,
         "#define CONFIG_C \"hello\"".toList, "#define CONFIG_D 42".toList] ++
        autoconf_epilogue) := by
  refine ⟨?_, ?_, ?_, ?_, ?_, ?_, ?_⟩
  · intro name value hn hv hp hne hcase
    rw [convLine_mkLine name value hn hv hp hne]
    rcases hcase with rfl | rfl <;> rfl
  · intro name value hn hv hp hne hcase
    rw [convLine_mkLine name value hn hv hp hne]
    rcases hcase with rfl | rfl <;> rfl
  · intro name value hn hv hp hne h1 h2 hlen hy hn2
    rw [convLine_mkLine name value hn hv hp hne]
    have hvy : value ≠ "y".toList := by
      intro heq; rw [heq] at h1; exact absurd h1 (by decide)
    have hvn : value ≠ "n".toList := by
      intro heq; rw [heq] at h1; exact absurd h1 (by decide)
    rw [if_neg (by
        simp only [Bool.or_eq_true, beq_iff_eq]
        rintro (h | h)
        · exact hvy h
        · exact hy h),
      if_neg (by
        simp only [Bool.or_eq_true, beq_iff_eq]
        rintro (h | h)
        · exact hvn h
        · exact hn2 h),
      if_pos (by simp [h1, h2])]
  · intro name value hn hv hp hne hy1 hy2 hn1 hn2 hq
    rw [convLine_mkLine name value hn hv hp hne]
    rw [if_neg (by
        simp only [Bool.or_eq_true, beq_iff_eq]
        rintro (h | h)
        · exact hy1 h
        · exact hy2 h),
      if_neg (by
        simp only [Bool.or_eq_true, beq_iff_eq]
        rintro (h | h)
        · exact hn1 h
        · exact hn2 h),
      if_neg (by rw [hq]; exact Bool.false_ne_true)]
  · intro line h
    rw [convLine_eq, h]
    rfl
  · intro line h
    rw [convLine_eq]
    cases hp : "CONFIG_".toList.isPrefixOf (trimWS line) with
    | false => rfl
    | true => rw [h]; rfl
  · decide

/-- C7 witness: the boolean-true clause of the theorem applied at the
concrete line `CONFIG_A=y`. -/
theorem c7_config_header_mapping_witness :
    convLine ("CONFIG_A".toList ++ '=' :: "y".toList) =
      some ("#define ".toList ++ "CONFIG_A".toList ++ " 1".toList) :=
  c7_config_header_mapping.1 "CONFIG_A".toList "y".toList (by decide) (by decide) (by decide)
    (by decide) (Or.inl rfl)

/-- C4 counterexample: a concrete post-build run in which binary and hex
generation succeed but the disassembly step exits with non-zero status
completes successfully, writing the captured stdout — the pipeline is not
aborted, contrary to the claim that a disassembly failure is fatal. -/
theorem c4_counterexample :
    run_postbuild true true true (some true) (some true) (some "@30000000 00".toList)
        true (some (false, "disassembly".toList)) true =
      Except.ok ⟨hexFix "@30000000 00".toList, "disassembly".toList⟩ ∧
    (run_postbuild true true true (some true) (some true) (some "@30000000 00".toList)
        true (some (false, "disassembly".toList)) true).isOk = true :=
  ⟨rfl, rfl⟩

/-- C4 (amended): binary-generation and hex-generation failures abort the
pipeline, and a failure to spawn the disassembler aborts it; but a
non-zero exit of the disassembly step is NOT fatal — the exit status is
never inspected, the result is identical to a successful exit, and the
pipeline completes with the captured stdout written. -/
theorem c4_disassembly_failure_not_fatal :
    (∀ (hexRun : Option Bool) (hexRead : Option (List Char)) (hw : Bool)
        (dis : Option (Bool × List Char)) (tw : Bool),
      run_postbuild true true true (some false) hexRun hexRead hw dis tw =
        Except.error PostbuildErr.binFailed) ∧
    (∀ (hexRead : Option (List Char)) (hw : Bool)
        (dis : Option (Bool × List Char)) (tw : Bool),
      run_postbuild true true true (some true) (some false) hexRead hw dis tw =
        Except.error PostbuildErr.hexFailed) ∧
    (∀ (c : List Char) (tw : Bool),
      run_postbuild true true true (some true) (some true) (some c) true none tw =
        Except.error PostbuildErr.ioErr) ∧
    (∀ (c dump : List Char) (b : Bool) (tw : Bool),
      run_postbuild true true true (some true) (some true) (some c) true
          (some (b, dump)) tw =
        run_postbuild true true true (some true) (some true) (some c) true
          (some (true, dump)) tw) ∧
    (∀ c dump : List Char,
      run_postbuild true true true (some true) (some true) (some c) true
          (some (false, dump)) true = Except.ok ⟨hexFix c, dump⟩) := by
  refine ⟨?_, ?_, ?_, ?_, ?_⟩ <;> · intros; rfl

/-- C5 counterexample: with the executable and reporting script present
but the write of the synthesized makefile failing, the memory-report stage
propagates an error and the build fails instead of completing with a
warning — so "any other failure inside the stage" is not a warning. -/
theorem c5_counterexample :
    generate_memory_report true true true false none = Except.error () ∧
    build_completes_after_postbuild false
      (generate_memory_report true true true false none) = false :=
  ⟨rfl, rfl⟩

/-- C5 (amended): a missing executable, a missing reporting script, and a
non-zero exit of the invoked tool are each reported as a warning only and
the build still completes; but an I/O failure inside the stage (writing
the synthesized makefile, spawning the tool) propagates and fails the
build. -/
theorem c5_memory_report_warnings :
    (∀ (mkE w : Bool) (mk : Option Bool),
      generate_memory_report true false mkE w mk = Except.ok [MemWarn.elfMissing] ∧
      build_completes_after_postbuild false
        (generate_memory_report true false mkE w mk) = true) ∧
    (∀ (w : Bool) (mk : Option Bool),
      generate_memory_report true true false w mk = Except.ok [MemWarn.mkMissing] ∧
      build_completes_after_postbuild false
        (generate_memory_report true true false w mk) = true) ∧
    (generate_memory_report true true true true (some false) =
        Except.ok [MemWarn.reportFailed] ∧
      build_completes_after_postbuild false
        (generate_memory_report true true true true (some false)) = true) ∧
    (∀ mk : Option Bool,
      build_completes_after_postbuild false
        (generate_memory_report true true true false mk) = false) := by
  refine ⟨fun mkE w mk => ⟨?_, ?_⟩, fun w mk => ⟨?_, ?_⟩, ⟨rfl, rfl⟩, fun mk => ?_⟩ <;>
    cases mk <;> rfl

/-- C10 counterexample: with the nearest ancestor's `Cargo.toml` failing to
parse and the next ancestor carrying the marker, the code aborts with the
propagated parse error instead of skipping upward to the qualifying
ancestor as the claim states. -/
theorem c10_counterexample :
    find_project_root [DirToml.parseErr, DirToml.parsed sampleMarkerToml] =
      RootResult.errParse ∧
    find_project_root_claimed [DirToml.parseErr, DirToml.parsed sampleMarkerToml] =
      RootResult.found 1 ∧
    RootResult.errParse ≠ RootResult.found 1 :=
  ⟨rfl, rfl, by decide⟩

/-- C10 (amended): when no ancestor's `Cargo.toml` fails to parse, root
discovery is exactly the claimed nearest-marker resolution (including the
"not an ECOS project" error when nothing qualifies); but an ancestor whose
`Cargo.toml` fails to parse aborts the search with the propagated parse
error whenever no nearer ancestor qualifies. -/
theorem c10_root_discovery_amended :
    ∀ dirs : List DirToml,
      ((∀ d ∈ dirs, d ≠ DirToml.parseErr) →
        find_project_root dirs = find_project_root_claimed dirs) ∧
      (∀ pre post, dirs = pre ++ DirToml.parseErr :: post →
        (∀ d ∈ pre, d.qualifies = false) →
        find_project_root dirs = RootResult.errParse) := by
  intro dirs
  refine ⟨find_project_root_eq_claimed_of_no_parseErr dirs, ?_⟩
  intro pre post hsplit hpre
  rw [hsplit]
  exact find_project_root_parseErr_aborts pre post hpre

/-- C10 witness: the amended characterization applied to concrete
directory chains. -/
theorem c10_root_discovery_amended_witness :
    find_project_root [DirToml.noFile, DirToml.parsed sampleMarkerToml] =
      find_project_root_claimed [DirToml.noFile, DirToml.parsed sampleMarkerToml] ∧
    find_project_root [DirToml.parsed Toml.other, DirToml.parseErr] =
      RootResult.errParse :=
  ⟨(c10_root_discovery_amended _).1 (by
      intro d hd
      rcases List.mem_cons.mp hd with h | h
      · subst h; intro hc; cases hc
      · rcases List.mem_cons.mp h with h' | h'
        · subst h'; intro hc; cases hc
        · cases h'),
   (c10_root_discovery_amended _).2 [DirToml.parsed Toml.other] [] rfl (by
      intro d hd
      rcases List.mem_cons.mp hd with h | h
      · subst h; rfl
      · cases h)⟩

end CargoEcos
